import Mathlib

/-!
Verification development for the evolver repository's
verification–classification–repair orchestration engine and its
run-state/locking reliability layer.

The Go sources are shallowly embedded as executable Lean definitions:

* `internal/verify/verify.go` — `CommandResult`, `Report`,
  `ClassifyFailure`, `RunCommandsReport`, `inferCommands`;
* `cmd/evolver/main.go` — `verifyWithRepair`, `isTerminalVerifyFailure`,
  `filterRepairCapabilities`, `executeRepairActions`;
* `internal/runstate/runstate.go` — `State`, `Recorder.Finish`,
  `AcquireLock`.

Subprocess execution, the filesystem and the external plan generator are
modelled as explicit oracle parameters; string primitives
(`strings.ToLower`, `strings.Contains`, `strings.TrimSpace`,
`strings.Fields`, `strings.HasPrefix`) are re-implemented over `List Char`
so that every definition is kernel-computable.  Lowercasing is modelled at
ASCII granularity (`Char.toLower`), which agrees with Go's
`strings.ToLower` on all ASCII inputs; every signature phrase in the
classifier is ASCII.
-/

/-! ### Go string primitives, kernel-computable -/

/-- Model of `strings.Contains` restricted to the character list of the
haystack: `true` iff `pat` occurs as a contiguous substring of `s`. -/
def hasSubstring : List Char → List Char → Bool
  | [], pat => pat.isEmpty
  | c :: rest, pat => pat.isPrefixOf (c :: rest) || hasSubstring rest pat

/-- Model of `strings.Contains s pat`. -/
def goContains (s pat : String) : Bool := hasSubstring s.data pat.data

/-- Model of `strings.ToLower` (ASCII granularity). -/
def goLower (s : String) : String := ⟨s.data.map Char.toLower⟩

/-- Whitespace trimming on character lists, from both ends. -/
def trimChars (l : List Char) : List Char :=
  ((l.dropWhile Char.isWhitespace).reverse.dropWhile Char.isWhitespace).reverse

/-- Model of `strings.TrimSpace`. -/
def goTrim (s : String) : String := ⟨trimChars s.data⟩

/-- Model of `strings.HasPrefix s pre`. -/
def goStartsWith (s pre : String) : Bool := pre.data.isPrefixOf s.data

/-- Accumulator-style splitter behind `goFields`. -/
def fieldsAux : List Char → List Char → List (List Char)
  | [], cur => if cur.isEmpty then [] else [cur.reverse]
  | c :: rest, cur =>
    if c.isWhitespace then
      (if cur.isEmpty then fieldsAux rest [] else cur.reverse :: fieldsAux rest [])
    else fieldsAux rest (c :: cur)

/-- Model of `strings.Fields`: split around runs of whitespace, dropping
empty fields. -/
def goFields (s : String) : List String := (fieldsAux s.data []).map List.asString

/-- Model of `strings.EqualFold` (ASCII granularity): equality after
lowercasing both sides. -/
def goEqualFold (a b : String) : Bool := goLower a == goLower b

/-! ### internal/verify — data model and failure classifier -/

/-- Embedding of `verify.CommandResult` (verify.go).  `DurationMS` is kept
as environment-supplied data; the wall clock is not modelled. -/
structure CommandResult where
  index : Nat
  total : Nat
  command : String
  exitCode : Int
  stdout : String
  stderr : String
  durationMS : Int
  passed : Bool
  kind : String
deriving DecidableEq, Repr

/-- Embedding of `verify.Report` (verify.go): the ordered command results
of one verification pass. -/
structure Report where
  commands : List CommandResult
deriving DecidableEq, Repr

/-- Embedding of `hasAny` (verify.go): true iff any non-empty needle is a
substring of `s`. -/
def hasAny (s : String) (needles : List String) : Bool :=
  needles.any fun n => (!(n == "")) && goContains s n

/-- Signature phrases of the `security_integrity` rule in
`ClassifyFailure` (verify.go lines 145-151). -/
def securityIntegritySignatures : List String :=
  ["checksum mismatch", "security error", "sum.golang.org",
   "verifying module:", "go: verification failed"]

/-- Embedding of `verify.ClassifyFailure` (verify.go lines 137-356): the
ordered cascade of signature rules over the lowercased concatenation of
stdout and stderr, with command-prefix fallbacks. -/
def ClassifyFailure (res : CommandResult) : String :=
  let cmdLower := goLower (goTrim res.command)
  let text := goLower (res.stdout ++ "\n" ++ res.stderr)
  if hasAny text securityIntegritySignatures then
    "security_integrity"
  else if hasAny text ["test timed out after", "context deadline exceeded",
      "deadline exceeded", "timed out"] then
    "timeout_failure"
  else if hasAny text ["command not found", "executable file not found",
      "not recognized as an internal or external command"] then
    "env_command_missing"
  else if hasAny text ["no such file or directory", "cannot find the path specified"] then
    "env_missing_path"
  else if hasAny text ["dial tcp", "tls handshake timeout",
      "temporary failure in name resolution", "i/o timeout", "connection refused",
      "network is unreachable", "connection reset by peer", "no route to host"] then
    "env_network"
  else if hasAny text ["missing go.sum entry", "updates to go.mod needed",
      "updates to go.sum needed", "go: updates to go.mod needed; to update it:",
      "go: updates to go.sum needed"] then
    "dependency_manifest_missing"
  else if hasAny text ["no required module provides package",
      "cannot find module providing package", "cannot find package"] then
    "dependency_resolution"
  else if hasAny text ["go: errors parsing go.mod", "go.mod:"] &&
      hasAny text ["usage: require module/path v", "usage: replace", "usage: exclude",
        "unknown directive", "repeated go statement", "invalid go version",
        "malformed module path", "expected"] then
    "dependency_manifest_invalid"
  else if hasAny text ["go: downloading", "authentication required", "unable to access",
      "repository not found", "403 forbidden", "401 unauthorized", "proxyconnect tcp",
      "module lookup disabled by goproxy=off", "unrecognized import path"] then
    "dependency_fetch"
  else if goStartsWith (goTrim text) "usage: go " ||
      (hasAny text ["go help test", "unknown command", "flag provided but not defined: -"]
        && goContains cmdLower "go ") then
    "verify_command_invalid"
  else if goContains cmdLower " vet" || goStartsWith cmdLower "go vet" ||
      hasAny text ["vet:"] then
    "vet_failure"
  else if hasAny text ["panic:", "fatal error:", "runtime error:"] then
    "test_failure"
  else if hasAny text ["--- fail:", "fail\t", "fail ", "--- panic:"] &&
      (goContains cmdLower "go test" || goContains text "testing.t") then
    "test_failure"
  else if hasAny text ["expected:", "actual  :", "not equal:",
      "received unexpected error", "assertion failed", "want ", "got "] &&
      goContains cmdLower "go test" then
    "test_failure"
  else if hasAny text ["undefined:", "cannot use ", "too many arguments in call",
      "not enough arguments in call", "missing argument in conversion to",
      "invalid operation:", "cannot assign to", "declared and not used:",
      "imported and not used:", "redeclared in this block", "method has no receiver",
      "cannot range over", "does not implement", "type mismatch", "syntax error:",
      "unexpected newline", "unexpected eof", "build failed", "[build failed]",
      "failed to build"] then
    "compile_failure"
  else if goContains cmdLower "go " &&
      hasAny text ["go test", "go build", "build failed", "[build failed]", "fail\t"] then
    (if hasAny text ["build failed", "[build failed]"] then "compile_failure"
     else "test_failure")
  else if goStartsWith cmdLower "go vet" then
    "vet_failure"
  else if goStartsWith cmdLower "go test" then
    "test_failure"
  else if goStartsWith cmdLower "go mod " then
    "dependency_manifest_invalid"
  else if goStartsWith cmdLower "go list" then
    "dependency_resolution"
  else if goStartsWith cmdLower "go build" then
    "compile_failure"
  else
    "unknown_failure"

/-! ### Claim C3 -/

/-- C3: for every `CommandResult` whose lowercased concatenated
stdout+stderr contains one of the security/integrity signature phrases,
`ClassifyFailure` returns `"security_integrity"`, regardless of what other
failure phrases co-occur in the same output: the integrity rule is the
first rule evaluated. -/
theorem classifyFailure_security_integrity_first (res : CommandResult)
    (h : hasAny (goLower (res.stdout ++ "\n" ++ res.stderr))
      securityIntegritySignatures = true) :
    ClassifyFailure res = "security_integrity" := by
  unfold ClassifyFailure
  simp only [h, if_true]

/-- Witness for C3: an output mixing a checksum-mismatch phrase with a
compile-error phrase is still classified `security_integrity`. -/
theorem classifyFailure_security_integrity_first_witness :
    hasAny (goLower
      ("undefined: Foo" ++ "\n" ++ "SECURITY ERROR: checksum mismatch"))
      securityIntegritySignatures = true ∧
    ClassifyFailure
      { index := 1, total := 1, command := "go build ./...", exitCode := 1,
        stdout := "undefined: Foo",
        stderr := "SECURITY ERROR: checksum mismatch",
        durationMS := 5, passed := false, kind := "" } = "security_integrity" :=
  ⟨by decide,
   classifyFailure_security_integrity_first
     { index := 1, total := 1, command := "go build ./...", exitCode := 1,
       stdout := "undefined: Foo",
       stderr := "SECURITY ERROR: checksum mismatch",
       durationMS := 5, passed := false, kind := "" } (by decide)⟩

/-! ### internal/verify — verification runner -/

/-- Outcome of `cmd.Run()` for one spawned verification command:
`ok` is a nil error, `exitErr code` an `exec.ExitError` with that exit
code, `otherErr` any other non-nil error (exit code is reported as -1). -/
inductive RunErr where
  | ok
  | exitErr (code : Int)
  | otherErr
deriving DecidableEq, Repr

/-- Environment-supplied observation of one subprocess execution: the
`cmd.Run()` error together with the captured stdout/stderr and duration. -/
structure RunOutcome where
  err : RunErr
  stdout : String
  stderr : String
  durationMS : Int
deriving DecidableEq, Repr

/-- Embedding of `verify.inferCommands` (verify.go lines 367-375), with the
two marker-file `os.Stat` probes as boolean parameters. -/
def inferCommands (goModPresent packageJsonPresent : Bool) : List String :=
  if goModPresent then ["go test ./..."]
  else if packageJsonPresent then ["npm test"]
  else []

/-- Passing `CommandResult` built by the loop body of
`verify.RunCommandsReport` when `cmd.Run()` returns nil. -/
def passResult (o : RunOutcome) (i total : Nat) (cmdStr : String) : CommandResult :=
  { index := i + 1, total := total, command := cmdStr, exitCode := 0,
    stdout := o.stdout, stderr := o.stderr, durationMS := o.durationMS,
    passed := true, kind := "" }

/-- Failing `CommandResult` built by the loop body of
`verify.RunCommandsReport`: exit code from the `exec.ExitError` (or -1 for
other errors), then `Kind` filled in by `ClassifyFailure`. -/
def failResult (o : RunOutcome) (i total : Nat) (cmdStr : String) (code : Int) : CommandResult :=
  let res0 : CommandResult :=
    { index := i + 1, total := total, command := cmdStr, exitCode := code,
      stdout := o.stdout, stderr := o.stderr, durationMS := o.durationMS,
      passed := false, kind := "" }
  { res0 with kind := ClassifyFailure res0 }

/-- Command loop of `verify.RunCommandsReport` (verify.go lines 72-130):
blank commands are skipped, results are appended in order, and the loop
returns early with the failing result at the first non-nil run error.
`exec i` is the subprocess observation for loop index `i`. -/
def runCommandsLoop (exec : Nat → RunOutcome) (total : Nat) :
    List String → Nat → List CommandResult → List CommandResult × Option CommandResult
  | [], _, acc => (acc, none)
  | cmdStr :: rest, i, acc =>
    if (goFields cmdStr).isEmpty then
      runCommandsLoop exec total rest (i + 1) acc
    else
      match (exec i).err with
      | .ok =>
        runCommandsLoop exec total rest (i + 1) (acc ++ [passResult (exec i) i total cmdStr])
      | .exitErr code =>
        (acc ++ [failResult (exec i) i total cmdStr code],
         some (failResult (exec i) i total cmdStr code))
      | .otherErr =>
        (acc ++ [failResult (exec i) i total cmdStr (-1)],
         some (failResult (exec i) i total cmdStr (-1)))

/-- Embedding of `verify.RunCommandsReport` (verify.go lines 64-133).  The
second component is the `CommandFailureError` payload: `none` means a nil
error, `some res` the distinguished command-failure error carrying `res`. -/
def RunCommandsReport (exec : Nat → RunOutcome) (goModPresent packageJsonPresent : Bool)
    (commands0 : List String) : Report × Option CommandResult :=
  let commands :=
    if commands0.isEmpty then inferCommands goModPresent packageJsonPresent else commands0
  let out := runCommandsLoop exec commands.length commands 0 []
  (⟨out.1⟩, out.2)

/-- Loop invariant behind C4: provided every accumulated result passed,
every result except possibly the last one in the loop's output passed. -/
theorem runCommandsLoop_dropLast_passed (exec : Nat → RunOutcome) (total : Nat) :
    ∀ (cmds : List String) (i : Nat) (acc : List CommandResult),
      (∀ r ∈ acc, r.passed = true) →
      ∀ r ∈ ((runCommandsLoop exec total cmds i acc).1).dropLast, r.passed = true := by
  intro cmds
  induction cmds with
  | nil =>
    intro i acc hacc r hr
    exact hacc r ((List.dropLast_prefix _).subset hr)
  | cons c rest ih =>
    intro i acc hacc r hr
    rw [runCommandsLoop] at hr
    by_cases hskip : (goFields c).isEmpty
    · rw [if_pos hskip] at hr
      exact ih (i + 1) acc hacc r hr
    · rw [if_neg hskip] at hr
      rcases herr : (exec i).err with _ | code | _
      all_goals rw [herr] at hr
      · refine ih (i + 1) _ ?_ r hr
        intro r' hr'
        rcases List.mem_append.mp hr' with h | h
        · exact hacc r' h
        · rw [List.mem_singleton.mp h]
          rfl
      · have hr' : r ∈ (acc ++ [failResult (exec i) i total c code]).dropLast := hr
        rw [List.dropLast_concat] at hr'
        exact hacc r hr'
      · have hr' : r ∈ (acc ++ [failResult (exec i) i total c (-1)]).dropLast := hr
        rw [List.dropLast_concat] at hr'
        exact hacc r hr' 

/-- List-level core of C4: if every element of `cs.dropLast` passed, then a
failed element of `cs` sits at the last index and all earlier ones
passed. -/
theorem failedIndexIsLast (cs : List CommandResult)
    (hdrop : ∀ r ∈ cs.dropLast, r.passed = true)
    (i : Nat) (hi : i < cs.length) (hfail : (cs.get ⟨i, hi⟩).passed = false) :
    i + 1 = cs.length ∧
    ∀ j (hj : j < i), (cs.get ⟨j, Nat.lt_trans hj hi⟩).passed = true := by
  have hmem : ∀ k (hk : k + 1 < cs.length), (cs.get ⟨k, Nat.lt_of_succ_lt hk⟩).passed = true := by
    intro k hk
    have hk' : k < cs.dropLast.length := by
      rw [List.length_dropLast]; omega
    have : cs.dropLast.get ⟨k, hk'⟩ = cs.get ⟨k, Nat.lt_of_succ_lt hk⟩ := by
      simp [List.getElem_dropLast]
    rw [← this]
    exact hdrop _ (List.get_mem _ _ _)
  constructor
  · by_contra hne
    have hlt : i + 1 < cs.length := by omega
    have := hmem i hlt
    rw [hfail] at this
    cases this
  · intro j hj
    exact hmem j (by omega)

/-- C4: in every `Report` returned by `RunCommandsReport`, a failed
`CommandResult` is the last element, and every preceding element passed
(stop-on-first-failure). -/
theorem report_failure_is_last (exec : Nat → RunOutcome) (goModPresent packageJsonPresent : Bool)
    (commands0 : List String) (i : Nat)
    (hi : i < (RunCommandsReport exec goModPresent packageJsonPresent commands0).1.commands.length)
    (hfail : ((RunCommandsReport exec goModPresent packageJsonPresent
        commands0).1.commands.get ⟨i, hi⟩).passed = false) :
    i + 1 = (RunCommandsReport exec goModPresent packageJsonPresent commands0).1.commands.length ∧
    ∀ j (hj : j < i),
      ((RunCommandsReport exec goModPresent packageJsonPresent commands0).1.commands.get
        ⟨j, Nat.lt_trans hj hi⟩).passed = true := by
  refine failedIndexIsLast _ ?_ i hi hfail
  exact runCommandsLoop_dropLast_passed exec _ _ 0 [] (by intro r hr; cases hr)

/-- Witness for C4: a run whose second command fails; the theorem applied
at index 1 confirms the failure is last and index 0 passed. -/
theorem report_failure_is_last_witness :
    (1 : Nat) < (RunCommandsReport
      (fun i => if i = 0 then ⟨.ok, "", "", 1⟩ else ⟨.exitErr 2, "", "boom", 1⟩)
      false false ["go version", "go test ./..."]).1.commands.length ∧
    (1 : Nat) + 1 = (RunCommandsReport
      (fun i => if i = 0 then ⟨.ok, "", "", 1⟩ else ⟨.exitErr 2, "", "boom", 1⟩)
      false false ["go version", "go test ./..."]).1.commands.length := by
  refine ⟨by decide, ?_⟩
  exact (report_failure_is_last
    (fun i => if i = 0 then ⟨.ok, "", "", 1⟩ else ⟨.exitErr 2, "", "boom", 1⟩)
    false false ["go version", "go test ./..."] 1 (by decide) (by decide)).1

/-- Helper for C10: every result the loop emits comes from a command whose
`strings.Fields` tokenization is non-empty. -/
theorem runCommandsLoop_command_nonblank (exec : Nat → RunOutcome) (total : Nat) :
    ∀ (cmds : List String) (i : Nat) (acc : List CommandResult),
      (∀ r ∈ acc, goFields r.command ≠ []) →
      ∀ r ∈ (runCommandsLoop exec total cmds i acc).1, goFields r.command ≠ [] := by
  intro cmds
  induction cmds with
  | nil =>
    intro i acc hacc r hr
    exact hacc r hr
  | cons c rest ih =>
    intro i acc hacc r hr
    rw [runCommandsLoop] at hr
    by_cases hskip : (goFields c).isEmpty
    · rw [if_pos hskip] at hr
      exact ih (i + 1) acc hacc r hr
    · rw [if_neg hskip] at hr
      have hc : goFields c ≠ [] := by
        intro habs
        rw [habs] at hskip
        exact hskip rfl
      rcases herr : (exec i).err with _ | code | _
      all_goals rw [herr] at hr
      · refine ih (i + 1) _ ?_ r hr
        intro r' hr'
        rcases List.mem_append.mp hr' with h | h
        · exact hacc r' h
        · rw [List.mem_singleton.mp h]; exact hc
      · have hr' : r ∈ acc ++ [failResult (exec i) i total c code] := hr
        rcases List.mem_append.mp hr' with h | h
        · exact hacc r h
        · rw [List.mem_singleton.mp h]; exact hc
      · have hr' : r ∈ acc ++ [failResult (exec i) i total c (-1)] := hr
        rcases List.mem_append.mp hr' with h | h
        · exact hacc r h
        · rw [List.mem_singleton.mp h]; exact hc

/-- C10: with an empty configured command list and neither marker file
present, `RunCommandsReport` returns an empty report and a nil error
(vacuous success, no command executed); and in general blank or
whitespace-only command strings produce no `CommandResult`: every emitted
result's command has a non-empty tokenization. -/
theorem runCommandsReport_empty_and_blank_skipped :
    (∀ exec : Nat → RunOutcome, RunCommandsReport exec false false [] = (⟨[]⟩, none)) ∧
    (∀ (exec : Nat → RunOutcome) (gm pj : Bool) (cmds : List String)
        (r : CommandResult), r ∈ (RunCommandsReport exec gm pj cmds).1.commands →
      goFields r.command ≠ []) := by
  constructor
  · intro exec
    rfl
  · intro exec gm pj cmds r hr
    have : r ∈ (runCommandsLoop exec _ (if cmds.isEmpty then inferCommands gm pj else cmds)
        0 []).1 := hr
    exact runCommandsLoop_command_nonblank exec _ _ 0 [] (by intro r' hr'; cases hr') r this

/-- Witness for C10: the emitted result of a concrete run indeed has a
non-blank command. -/
theorem runCommandsReport_empty_and_blank_skipped_witness :
    goFields "go test ./..." ≠ [] :=
  runCommandsReport_empty_and_blank_skipped.2
    (fun _ => ⟨.ok, "", "", 1⟩) false false ["   ", "go test ./..."]
    { index := 2, total := 2, command := "go test ./...", exitCode := 0,
      stdout := "", stderr := "", durationMS := 1, passed := true, kind := "" }
    (by decide)

/-! ### internal/runstate — run-state recorder and lock -/

/-- Embedding of `runstate.State` (runstate.go lines 13-27): durable
counters and bookkeeping fields.  Counters are Go `int`s, modelled as
`Int`. -/
structure State where
  lastStartedAt : String
  lastFinishedAt : String
  lastSuccessAt : String
  lastErrorAt : String
  lastOutcome : String
  lastError : String
  lastChangeSummary : String
  totalRuns : Int
  totalSuccesses : Int
  totalFailures : Int
  totalChangedRuns : Int
  consecutiveFailures : Int
  consecutiveNoop : Int
deriving DecidableEq, Repr

/-- Zero-valued `runstate.State`, produced when no state file exists. -/
def State.initial : State :=
  { lastStartedAt := "", lastFinishedAt := "", lastSuccessAt := "",
    lastErrorAt := "", lastOutcome := "", lastError := "",
    lastChangeSummary := "", totalRuns := 0, totalSuccesses := 0,
    totalFailures := 0, totalChangedRuns := 0, consecutiveFailures := 0,
    consecutiveNoop := 0 }

/-- Embedding of `Recorder.Start` (runstate.go lines 55-64) as the state
transition it performs; persistence and log append are I/O effects outside
the state.  `now` is the formatted wall-clock timestamp. -/
def Recorder.Start (s : State) (now : String) : State :=
  { s with
    totalRuns := s.totalRuns + 1
    lastStartedAt := now
    lastOutcome := "running" }

/-- Embedding of `Recorder.Finish` (runstate.go lines 67-110) as the state
transition it performs, paired with the event name it appends to the run
log (`"error"`, `"changed"` or `"noop"`).  `runErr` is `some msg` for a
non-nil error. -/
def Recorder.Finish (s : State) (changed : Bool) (summary : String)
    (runErr : Option String) (now : String) : State × String :=
  let s1 := { s with lastFinishedAt := now }
  match runErr with
  | some msg =>
    ({ s1 with
       totalFailures := s1.totalFailures + 1
       consecutiveFailures := s1.consecutiveFailures + 1
       lastErrorAt := now
       lastOutcome := "error"
       lastError := msg }, "error")
  | none =>
    let s2 := { s1 with
      totalSuccesses := s1.totalSuccesses + 1
      consecutiveFailures := 0
      lastSuccessAt := now
      lastError := ""
      lastChangeSummary := summary }
    if changed then
      ({ s2 with
         totalChangedRuns := s2.totalChangedRuns + 1
         consecutiveNoop := 0
         lastOutcome := "changed" }, "changed")
    else
      ({ s2 with
         consecutiveNoop := s2.consecutiveNoop + 1
         lastOutcome := "noop" }, "noop")

/-! ### Claim C9 -/

/-- C9: `Recorder.Finish` with a non-nil error increments `TotalFailures`
and `ConsecutiveFailures`, records `LastError`, sets outcome `error` and
leaves `ConsecutiveNoop` unchanged; with a nil error it increments
`TotalSuccesses` and zeroes `ConsecutiveFailures`, and then either
increments `ConsecutiveNoop` (unchanged run — so two consecutive no-op
finishes from the zero state show `ConsecutiveNoop = 2` and
`ConsecutiveFailures = 0`) or increments `TotalChangedRuns` and zeroes
`ConsecutiveNoop` (changed run). -/
theorem recorder_finish_counters :
    (∀ (s : State) (c : Bool) (summary msg now : String),
      let s' := (Recorder.Finish s c summary (some msg) now).1
      s'.totalFailures = s.totalFailures + 1 ∧
      s'.consecutiveFailures = s.consecutiveFailures + 1 ∧
      s'.lastError = msg ∧
      s'.lastOutcome = "error" ∧
      s'.consecutiveNoop = s.consecutiveNoop) ∧
    (∀ (s : State) (summary now : String),
      let s' := (Recorder.Finish s false summary none now).1
      s'.totalSuccesses = s.totalSuccesses + 1 ∧
      s'.consecutiveFailures = 0 ∧
      s'.consecutiveNoop = s.consecutiveNoop + 1 ∧
      s'.lastOutcome = "noop") ∧
    (∀ (s : State) (summary now : String),
      let s' := (Recorder.Finish s true summary none now).1
      s'.totalSuccesses = s.totalSuccesses + 1 ∧
      s'.consecutiveFailures = 0 ∧
      s'.totalChangedRuns = s.totalChangedRuns + 1 ∧
      s'.consecutiveNoop = 0 ∧
      s'.lastOutcome = "changed") ∧
    (∀ (sum1 sum2 now1 now2 : String),
      let s' := (Recorder.Finish
        (Recorder.Finish State.initial false sum1 none now1).1
        false sum2 none now2).1
      s'.consecutiveNoop = 2 ∧ s'.consecutiveFailures = 0) := by
  refine ⟨?_, ?_, ?_, ?_⟩
  · intro s c summary msg now
    exact ⟨rfl, rfl, rfl, rfl, rfl⟩
  · intro s summary now
    exact ⟨rfl, rfl, rfl, rfl⟩
  · intro s summary now
    exact ⟨rfl, rfl, rfl, rfl, rfl⟩
  · intro sum1 sum2 now1 now2
    exact ⟨rfl, rfl⟩

/-! ### AcquireLock -/

/-- Outcome of one `createLock` call (runstate.go lines 140-152): nil
error with the file created, an `os.ErrExist` failure, or any other
error (including a failed diagnostic write). -/
inductive CreateOutcome where
  | ok
  | errExist
  | errOther
deriving DecidableEq, Repr

/-- Result of `runstate.AcquireLock` as observed by the caller. -/
inductive LockOutcome where
  | acquired
  | alreadyHeld
  | statFailed
  | createFailed
deriving DecidableEq, Repr

/-- Embedding of `runstate.AcquireLock` (runstate.go lines 113-138).
Oracle parameters describe the filesystem: `first`/`second` are the
outcomes of the at-most-two exclusive-create calls, `statOk` whether the
`os.Stat` of the existing file succeeds, `age` the value of
`time.Since(info.ModTime())`.  The result carries the caller-visible
outcome, whether the stale file was removed, and how many exclusive-create
attempts were made. -/
def AcquireLock (first : CreateOutcome) (statOk : Bool) (age staleAfter : Int)
    (second : CreateOutcome) : LockOutcome × Bool × Nat :=
  match first with
  | .ok => (.acquired, false, 1)
  | .errOther => (.createFailed, false, 1)
  | .errExist =>
    if !statOk then (.statFailed, false, 1)
    else if 0 < staleAfter ∧ staleAfter < age then
      match second with
      | .ok => (.acquired, true, 2)
      | _ => (.alreadyHeld, true, 2)
    else (.alreadyHeld, false, 1)

/-! ### Claim C8 -/

/-- C8: with the lock file present and fresh (`age < staleAfter`) or with
staleness recovery disabled (`staleAfter ≤ 0`), `AcquireLock` fails with
"lock already held" after a single create attempt; with the file present
and strictly older than a positive `staleAfter`, it removes the file,
retries the exclusive create exactly once, and acquires the lock when the
retry succeeds.  In every case at most two create attempts are made: a
single non-blocking try, no polling. -/
theorem acquireLock_fresh_fails_stale_recovers :
    (∀ (age staleAfter : Int) (second : CreateOutcome),
      age < staleAfter ∨ staleAfter ≤ 0 →
      AcquireLock .errExist true age staleAfter second = (.alreadyHeld, false, 1)) ∧
    (∀ age staleAfter : Int, 0 < staleAfter → staleAfter < age →
      AcquireLock .errExist true age staleAfter .ok = (.acquired, true, 2)) ∧
    (∀ (first : CreateOutcome) (statOk : Bool) (age staleAfter : Int)
        (second : CreateOutcome),
      (AcquireLock first statOk age staleAfter second).2.2 ≤ 2) := by
  refine ⟨?_, ?_, ?_⟩
  · intro age staleAfter second h
    have hcond : ¬(0 < staleAfter ∧ staleAfter < age) := by
      rcases h with h | h <;> intro ⟨h1, h2⟩ <;> omega
    simp [AcquireLock, hcond]
  · intro age staleAfter h1 h2
    simp [AcquireLock, h1, h2]
  · intro first statOk age staleAfter second
    by_cases hcond : 0 < staleAfter ∧ staleAfter < age
    all_goals rcases first with _ | _ | _
    all_goals rcases statOk with _ | _
    all_goals rcases second with _ | _ | _
    all_goals simp [AcquireLock, hcond]

/-- Witness for C8: a lock aged 200 minutes against a 180-minute staleness
bound is reclaimed (attempt retried once); a lock aged 30 minutes is not. -/
theorem acquireLock_fresh_fails_stale_recovers_witness :
    AcquireLock .errExist true 30 180 .ok = (.alreadyHeld, false, 1) ∧
    AcquireLock .errExist true 200 180 .ok = (.acquired, true, 2) :=
  ⟨acquireLock_fresh_fails_stale_recovers.1 30 180 .ok (Or.inl (by norm_num)),
   acquireLock_fresh_fails_stale_recovers.2.1 200 180 (by norm_num) (by norm_num)⟩

/-! ### cmd/evolver — repair capabilities -/

/-- Embedding of `config.RepairCapability` (internal/config): an
allowlisted, argv-defined remediation command. -/
structure RepairCapability where
  id : String
  description : String
  argv : List String
  timeoutSeconds : Int
  maxRunsPerAttempt : Int
  allowedFailureKinds : List String
  cwd : String
deriving DecidableEq, Repr

/-- Configuration fields of `config.Config` consumed by the repair
orchestrator (`cfg.Repair.MaxAttempts`, `cfg.Repair.MaxActionsPerAttempt`,
`cfg.Repair.Capabilities`, `cfg.Security.SecretScan`). -/
structure Config where
  repairMaxAttempts : Int
  repairMaxActionsPerAttempt : Int
  repairCapabilities : List RepairCapability
  securitySecretScan : Bool
deriving Repr

/-- Embedding of `filterRepairCapabilities` (main.go lines 633-652): keep
capabilities with a non-blank id and non-empty argv whose
`allowedFailureKinds` is empty or contains the failure kind
case-insensitively. -/
def filterRepairCapabilities (all : List RepairCapability) (failureKind : String) :
    List RepairCapability :=
  let kind := goLower (goTrim failureKind)
  all.filter fun c =>
    (!(goTrim c.id == "") && !c.argv.isEmpty) &&
    (c.allowedFailureKinds.isEmpty ||
      c.allowedFailureKinds.any fun k => goEqualFold (goTrim k) kind)

/-- Embedding of the `capsByID` map construction in `executeRepairActions`
(main.go lines 666-675): skip blank ids, fail at the first id already
present. -/
def buildCapsByID :
    List RepairCapability → List (String × RepairCapability) →
      Except String (List (String × RepairCapability))
  | [], acc => .ok acc
  | c :: rest, acc =>
    if c.id == "" then buildCapsByID rest acc
    else
      match acc.lookup c.id with
      | some _ => .error c.id
      | none => buildCapsByID rest (acc ++ [(c.id, c)])

/-- Model of the Go `runCounts[id]++` map update. -/
def bumpCount : List (String × Nat) → String → List (String × Nat)
  | [], k => [(k, 1)]
  | (a, v) :: rest, k => if a == k then (a, v + 1) :: rest else (a, v) :: bumpCount rest k

/-- Model of the Go `runCounts[id]` map read (0 when absent). -/
def getCount (counts : List (String × Nat)) (k : String) : Nat :=
  (counts.lookup k).getD 0

/-- Errors of `executeRepairActions` (main.go lines 654-696), one
constructor per `fmt.Errorf` site; `capabilityFailed` covers any error
propagated from `runRepairCapability`. -/
inductive RepairActionError where
  | tooManyActions (n : Nat) (maxA : Int)
  | duplicateCapabilityID (capID : String)
  | emptyActionID (i : Nat)
  | actionNotAllowed (capID : String)
  | exceededMaxRuns (capID : String) (maxR : Int)
  | capabilityFailed (capID : String)
deriving DecidableEq, Repr

/-- Action loop of `executeRepairActions` (main.go lines 677-695).
`runCap i` is the oracle for whether `runRepairCapability` returns nil at
position `i`; the third component records the positions at which
`runRepairCapability` was actually invoked. -/
def runActionsLoop (runCap : Nat → Bool) (caps : List (String × RepairCapability)) :
    List String → Nat → List (String × Nat) → List Nat →
      Option RepairActionError × List (String × Nat) × List Nat
  | [], _, counts, execd => (none, counts, execd)
  | rawID :: rest, i, counts, execd =>
    let actID := goTrim rawID
    if actID == "" then (some (.emptyActionID i), counts, execd)
    else
      match caps.lookup actID with
      | none => (some (.actionNotAllowed actID), counts, execd)
      | some c =>
        let counts' := bumpCount counts actID
        if 0 < c.maxRunsPerAttempt ∧ (getCount counts' actID : Int) > c.maxRunsPerAttempt then
          (some (.exceededMaxRuns actID c.maxRunsPerAttempt), counts', execd)
        else if runCap i then
          runActionsLoop runCap caps rest (i + 1) counts' (execd ++ [i])
        else
          (some (.capabilityFailed actID), counts', execd ++ [i])

/-- Embedding of `executeRepairActions` (main.go lines 654-696).  Besides
the Go return value (`none` for a nil error), the model reports the list
of positions whose capability was actually invoked. -/
def executeRepairActions (cfg : Config) (runCap : Nat → Bool) (actionIDs : List String)
    (allowed : List RepairCapability) : Option RepairActionError × List Nat :=
  if actionIDs.isEmpty then (none, [])
  else
    let maxActions : Int :=
      if cfg.repairMaxActionsPerAttempt ≤ 0 then 2 else cfg.repairMaxActionsPerAttempt
    if (actionIDs.length : Int) > maxActions then
      (some (.tooManyActions actionIDs.length maxActions), [])
    else
      match buildCapsByID allowed [] with
      | .error dupID => (some (.duplicateCapabilityID dupID), [])
      | .ok caps =>
        let out := runActionsLoop runCap caps actionIDs 0 [] []
        (out.1, out.2.2)

/-! ### Assoc-list lemmas for the action loop -/

/-- Lookup is preserved by appending on the right. -/
theorem lookup_append_of_some {β : Type} (l1 l2 : List (String × β)) (k : String) (v : β)
    (h : l1.lookup k = some v) : (l1 ++ l2).lookup k = some v := by
  induction l1 with
  | nil => cases h
  | cons p rest ih =>
    rcases p with ⟨a, b⟩
    by_cases hka : k = a
    · subst hka
      simp only [List.lookup, beq_self_eq_true] at h ⊢
      exact h
    · have hbeq : (k == a) = false := beq_eq_false_iff_ne.mpr hka
      simp only [List.cons_append, List.lookup, hbeq] at h ⊢
      exact ih h

/-- A freshly appended key is found when it was absent before. -/
theorem lookup_append_self {β : Type} (l1 : List (String × β)) (k : String) (v : β)
    (h : l1.lookup k = none) : (l1 ++ [(k, v)]).lookup k = some v := by
  induction l1 with
  | nil => simp only [List.nil_append, List.lookup, beq_self_eq_true]
  | cons p rest ih =>
    rcases p with ⟨a, b⟩
    by_cases hka : k = a
    · subst hka
      simp only [List.lookup, beq_self_eq_true] at h
      cases h
    · have hbeq : (k == a) = false := beq_eq_false_iff_ne.mpr hka
      simp only [List.lookup, hbeq] at h
      simp only [List.cons_append, List.lookup, hbeq]
      exact ih h

/-- Bumping a key increments exactly its count. -/
theorem getCount_bumpCount (counts : List (String × Nat)) (k : String) :
    getCount (bumpCount counts k) k = getCount counts k + 1 := by
  induction counts with
  | nil => simp [bumpCount, getCount, List.lookup]
  | cons p rest ih =>
    rcases p with ⟨a, v⟩
    by_cases hak : a = k
    · subst hak
      simp [bumpCount, getCount, List.lookup]
    · have hbeq : (a == k) = false := beq_eq_false_iff_ne.mpr hak
      have hbeq' : (k == a) = false := beq_eq_false_iff_ne.mpr (Ne.symm hak)
      simp only [bumpCount, hbeq, Bool.false_eq_true, if_false, getCount, List.lookup, hbeq']
      exact ih

/-- One loop step at a non-blank, allowed action whose check passes and
whose capability invocation succeeds. -/
theorem runActionsLoop_step_run (runCap : Nat → Bool)
    (caps : List (String × RepairCapability)) (rawID : String) (rest : List String)
    (i : Nat) (counts : List (String × Nat)) (execd : List Nat) (c : RepairCapability)
    (hid : ¬((goTrim rawID == "") = true))
    (hlook : caps.lookup (goTrim rawID) = some c)
    (hex : ¬(0 < c.maxRunsPerAttempt ∧
      ((getCount (bumpCount counts (goTrim rawID)) (goTrim rawID) : Int) >
        c.maxRunsPerAttempt)))
    (hrun : runCap i = true) :
    runActionsLoop runCap caps (rawID :: rest) i counts execd =
      runActionsLoop runCap caps rest (i + 1) (bumpCount counts (goTrim rawID))
        (execd ++ [i]) := by
  rw [runActionsLoop, if_neg hid]
  simp only [hlook]
  rw [if_neg hex, if_pos hrun]

/-- One loop step at the excess occurrence of an allowed action: the
per-attempt run bound trips and the loop stops without invoking the
capability. -/
theorem runActionsLoop_step_exceeded (runCap : Nat → Bool)
    (caps : List (String × RepairCapability)) (rawID : String) (rest : List String)
    (i : Nat) (counts : List (String × Nat)) (execd : List Nat) (c : RepairCapability)
    (hid : ¬((goTrim rawID == "") = true))
    (hlook : caps.lookup (goTrim rawID) = some c)
    (hex : 0 < c.maxRunsPerAttempt ∧
      ((getCount (bumpCount counts (goTrim rawID)) (goTrim rawID) : Int) >
        c.maxRunsPerAttempt)) :
    runActionsLoop runCap caps (rawID :: rest) i counts execd =
      (some (.exceededMaxRuns (goTrim rawID) c.maxRunsPerAttempt),
       bumpCount counts (goTrim rawID), execd) := by
  rw [runActionsLoop, if_neg hid]
  simp only [hlook]
  rw [if_pos hex]

/-- Processing a concatenation of action lists: when the first part runs
without error, the loop continues into the second part with the
accumulated counts, executed positions and shifted index. -/
theorem runActionsLoop_append (runCap : Nat → Bool) (caps : List (String × RepairCapability)) :
    ∀ (l1 l2 : List String) (i : Nat) (counts : List (String × Nat)) (execd : List Nat),
      (runActionsLoop runCap caps l1 i counts execd).1 = none →
      runActionsLoop runCap caps (l1 ++ l2) i counts execd =
        runActionsLoop runCap caps l2 (i + l1.length)
          (runActionsLoop runCap caps l1 i counts execd).2.1
          (runActionsLoop runCap caps l1 i counts execd).2.2 := by
  intro l1
  induction l1 with
  | nil =>
    intro l2 i counts execd _
    simp [runActionsLoop]
  | cons rawID rest ih =>
    intro l2 i counts execd h1
    by_cases hid : (goTrim rawID == "") = true
    · rw [runActionsLoop, if_pos hid] at h1
      cases h1
    · rcases hlook : List.lookup (goTrim rawID) caps with _ | c
      · rw [runActionsLoop, if_neg hid] at h1
        simp only [hlook] at h1
        cases h1
      · by_cases hex : 0 < c.maxRunsPerAttempt ∧
            ((getCount (bumpCount counts (goTrim rawID)) (goTrim rawID) : Int) >
              c.maxRunsPerAttempt)
        · rw [runActionsLoop, if_neg hid] at h1
          simp only [hlook] at h1
          rw [if_pos hex] at h1
          cases h1
        · by_cases hrun : runCap i = true
          · have hstep := runActionsLoop_step_run runCap caps rawID rest i counts execd c
              hid hlook hex hrun
            have hstep' := runActionsLoop_step_run runCap caps rawID (rest ++ l2) i counts
              execd c hid hlook hex hrun
            rw [hstep] at h1
            rw [List.cons_append, hstep', ih l2 (i + 1) _ _ h1, hstep]
            congr 1
            simp only [List.length_cons]
            omega
          · rw [runActionsLoop, if_neg hid] at h1
            simp only [hlook] at h1
            rw [if_neg hex, if_neg hrun] at h1
            cases h1

/-! ### Claim C5 -/

/-- C5: requesting an allowed capability one more time than its positive
`maxRunsPerAttempt` makes `executeRepairActions` fail with the
exceeded-max-runs error exactly at the excess occurrence: the actions
before it (including the in-bound occurrences, which may have executed)
are the only executed positions, and neither the excess occurrence nor any
later action is executed. -/
theorem executeRepairActions_excess_run_rejected (cfg : Config) (runCap : Nat → Bool)
    (allowed : List RepairCapability) (caps : List (String × RepairCapability))
    (pre post : List String) (rawJ actID : String) (c : RepairCapability)
    (counts : List (String × Nat)) (execd : List Nat)
    (hbuild : buildCapsByID allowed [] = .ok caps)
    (hid : goTrim rawJ = actID)
    (hne : (actID == "") = false)
    (hlook : caps.lookup actID = some c)
    (hmaxpos : 0 < c.maxRunsPerAttempt)
    (hpre : runActionsLoop runCap caps pre 0 [] [] = (none, counts, execd))
    (hcount : (getCount counts actID : Int) = c.maxRunsPerAttempt)
    (hlen : ((pre ++ rawJ :: post).length : Int) ≤
      (if cfg.repairMaxActionsPerAttempt ≤ 0 then 2 else cfg.repairMaxActionsPerAttempt)) :
    executeRepairActions cfg runCap (pre ++ rawJ :: post) allowed =
      (some (.exceededMaxRuns actID c.maxRunsPerAttempt), execd) := by
  have hfirst : (runActionsLoop runCap caps pre 0 [] []).1 = none := by
    rw [hpre]
  have happ := runActionsLoop_append runCap caps pre (rawJ :: post) 0 [] [] hfirst
  rw [hpre] at happ
  have hover : 0 < c.maxRunsPerAttempt ∧
      ((getCount (bumpCount counts (goTrim rawJ)) (goTrim rawJ) : Int) >
        c.maxRunsPerAttempt) := by
    constructor
    · exact hmaxpos
    · rw [hid, getCount_bumpCount]
      push_cast
      omega
  have hstep := runActionsLoop_step_exceeded runCap caps rawJ post (0 + pre.length)
    counts execd c (by rw [hid, hne]; exact Bool.false_ne_true) (by rw [hid]; exact hlook)
    hover
  rw [executeRepairActions, if_neg (by simp), if_neg (not_lt.mpr hlen), hbuild]
  show ((runActionsLoop runCap caps (pre ++ rawJ :: post) 0 [] []).1,
        (runActionsLoop runCap caps (pre ++ rawJ :: post) 0 [] []).2.2) =
       (some (.exceededMaxRuns actID c.maxRunsPerAttempt), execd)
  rw [happ]
  show ((runActionsLoop runCap caps (rawJ :: post) (0 + pre.length) counts execd).1,
        (runActionsLoop runCap caps (rawJ :: post) (0 + pre.length) counts execd).2.2) =
       (some (.exceededMaxRuns actID c.maxRunsPerAttempt), execd)
  rw [hstep, hid]

/-- Capability used by the concrete repair-bounding witnesses. -/
def capGoModTidy : RepairCapability :=
  { id := "go_mod_tidy", description := "tidy go.mod",
    argv := ["go", "mod", "tidy"], timeoutSeconds := 120,
    maxRunsPerAttempt := 1, allowedFailureKinds := [], cwd := "" }

/-- Configuration used by the concrete repair-bounding witnesses. -/
def cfgDefault : Config :=
  { repairMaxAttempts := 2, repairMaxActionsPerAttempt := 2,
    repairCapabilities := [capGoModTidy], securitySecretScan := true }

/-- Witness for C5: `go_mod_tidy` with `maxRunsPerAttempt = 1` requested
twice in one attempt is rejected at the second occurrence; only position 0
executed. -/
theorem executeRepairActions_excess_run_rejected_witness :
    executeRepairActions cfgDefault (fun _ => true) ["go_mod_tidy", "go_mod_tidy"]
      [capGoModTidy] =
      (some (.exceededMaxRuns "go_mod_tidy" 1), [0]) :=
  executeRepairActions_excess_run_rejected cfgDefault (fun _ => true)
    [capGoModTidy] [("go_mod_tidy", capGoModTidy)] ["go_mod_tidy"] [] "go_mod_tidy"
    "go_mod_tidy" capGoModTidy [("go_mod_tidy", 1)] [0]
    rfl rfl (by decide) rfl (by decide) rfl rfl (by decide)

/-! ### Claim C6 -/

/-- C6: when more action IDs are requested than `maxActionsPerAttempt`
(default 2 when the configured value is not positive), the whole attempt
is rejected with the too-many-actions error and no capability executes. -/
theorem executeRepairActions_too_many_rejected (cfg : Config) (runCap : Nat → Bool)
    (actionIDs : List String) (allowed : List RepairCapability)
    (hlen : ((actionIDs.length : Int) >
      (if cfg.repairMaxActionsPerAttempt ≤ 0 then 2 else cfg.repairMaxActionsPerAttempt))) :
    executeRepairActions cfg runCap actionIDs allowed =
      (some (.tooManyActions actionIDs.length
        (if cfg.repairMaxActionsPerAttempt ≤ 0 then 2 else cfg.repairMaxActionsPerAttempt)),
       []) := by
  have hnz : actionIDs ≠ [] := by
    intro habs
    rw [habs] at hlen
    simp only [List.length_nil] at hlen
    by_cases hc : cfg.repairMaxActionsPerAttempt ≤ 0
    · rw [if_pos hc] at hlen
      omega
    · rw [if_neg hc] at hlen
      omega
  rw [executeRepairActions]
  rw [if_neg (by simp only [List.isEmpty_eq_true]; exact hnz)]
  rw [if_pos hlen]

/-- Witness for C6: three requested actions against the default bound of 2
are rejected wholesale. -/
theorem executeRepairActions_too_many_rejected_witness :
    executeRepairActions cfgDefault (fun _ => true)
      ["go_mod_tidy", "go_mod_tidy", "go_mod_tidy"] [capGoModTidy] =
      (some (.tooManyActions 3 2), []) := by
  have h := executeRepairActions_too_many_rejected cfgDefault (fun _ => true)
    ["go_mod_tidy", "go_mod_tidy", "go_mod_tidy"] [capGoModTidy] (by decide)
  exact h

/-! ### Claim C7 -/

/-- Unfolding of `buildCapsByID` at a blank-id head: the entry is
skipped. -/
theorem buildCapsByID_cons_blank (a : RepairCapability) (rest : List RepairCapability)
    (acc : List (String × RepairCapability)) (h : (a.id == "") = true) :
    buildCapsByID (a :: rest) acc = buildCapsByID rest acc := by
  rw [buildCapsByID.eq_def]
  simp only [h, if_true]

/-- Unfolding of `buildCapsByID` at a head whose id is already a key: the
duplicate-id error is raised. -/
theorem buildCapsByID_cons_dup (a : RepairCapability) (rest : List RepairCapability)
    (acc : List (String × RepairCapability)) (v : RepairCapability)
    (h : (a.id == "") = false) (hl : acc.lookup a.id = some v) :
    buildCapsByID (a :: rest) acc = .error a.id := by
  rw [buildCapsByID.eq_def]
  simp only [h, Bool.false_eq_true, if_false, hl]

/-- Unfolding of `buildCapsByID` at a fresh non-blank head: the entry is
appended. -/
theorem buildCapsByID_cons_new (a : RepairCapability) (rest : List RepairCapability)
    (acc : List (String × RepairCapability))
    (h : (a.id == "") = false) (hl : acc.lookup a.id = none) :
    buildCapsByID (a :: rest) acc = buildCapsByID rest (acc ++ [(a.id, a)]) := by
  rw [buildCapsByID.eq_def]
  simp only [h, Bool.false_eq_true, if_false, hl]

/-- Predicate: the list contains two capabilities (at distinct positions)
with the same non-empty id. -/
def hasDupID (l : List RepairCapability) : Prop :=
  ∃ l1 c l2 c2 l3, l = l1 ++ c :: l2 ++ c2 :: l3 ∧ c.id = c2.id ∧ c.id ≠ ""

/-- Map construction fails once it reaches a capability whose non-empty id
is already a key of the accumulator. -/
theorem buildCapsByID_error_of_mem_key :
    ∀ (l : List RepairCapability) (acc : List (String × RepairCapability))
      (c2 : RepairCapability),
      c2 ∈ l → c2.id ≠ "" → (∃ v, acc.lookup c2.id = some v) →
      ∃ d, buildCapsByID l acc = .error d := by
  intro l
  induction l with
  | nil =>
    intro acc c2 hmem
    cases hmem
  | cons a rest ih =>
    intro acc c2 hmem hid hacc
    rcases List.mem_cons.mp hmem with rfl | hmem'
    · have hane : (c2.id == "") = false := beq_eq_false_iff_ne.mpr hid
      obtain ⟨v, hv⟩ := hacc
      exact ⟨c2.id, buildCapsByID_cons_dup c2 rest acc v hane hv⟩
    · by_cases ha : (a.id == "") = true
      · rw [buildCapsByID_cons_blank a rest acc ha]
        exact ih acc c2 hmem' hid hacc
      · have ha' : (a.id == "") = false := by
          simpa using ha
        rcases hl : acc.lookup a.id with _ | v
        · rw [buildCapsByID_cons_new a rest acc ha' hl]
          refine ih (acc ++ [(a.id, a)]) c2 hmem' hid ?_
          obtain ⟨v0, hv0⟩ := hacc
          exact ⟨v0, lookup_append_of_some acc [(a.id, a)] c2.id v0 hv0⟩
        · exact ⟨a.id, buildCapsByID_cons_dup a rest acc v ha' hl⟩

/-- Map construction fails on any list containing a duplicated non-empty
id, from any accumulator. -/
theorem buildCapsByID_error_of_dup :
    ∀ (l1 : List RepairCapability) (c : RepairCapability) (l2 : List RepairCapability)
      (c2 : RepairCapability) (l3 : List RepairCapability)
      (acc : List (String × RepairCapability)),
      c.id = c2.id → c.id ≠ "" →
      ∃ d, buildCapsByID (l1 ++ c :: l2 ++ c2 :: l3) acc = .error d := by
  intro l1
  induction l1 with
  | nil =>
    intro c l2 c2 l3 acc heq hne
    have hcne : (c.id == "") = false := beq_eq_false_iff_ne.mpr hne
    rw [List.nil_append, List.cons_append]
    rcases hl : acc.lookup c.id with _ | v
    · rw [buildCapsByID_cons_new c (l2 ++ c2 :: l3) acc hcne hl]
      refine buildCapsByID_error_of_mem_key (l2 ++ c2 :: l3) (acc ++ [(c.id, c)]) c2
        (List.mem_append_right l2 (List.mem_cons_self c2 l3)) ?_ ?_
      · rw [← heq]
        exact hne
      · refine ⟨c, ?_⟩
        rw [← heq]
        exact lookup_append_self acc c.id c hl
    · exact ⟨c.id, buildCapsByID_cons_dup c (l2 ++ c2 :: l3) acc v hcne hl⟩
  | cons a t ih =>
    intro c l2 c2 l3 acc heq hne
    rw [List.cons_append, List.cons_append]
    by_cases ha : (a.id == "") = true
    · rw [buildCapsByID_cons_blank a (t ++ c :: l2 ++ c2 :: l3) acc ha]
      exact ih c l2 c2 l3 acc heq hne
    · have ha' : (a.id == "") = false := by
        simpa using ha
      rcases hl : acc.lookup a.id with _ | v
      · rw [buildCapsByID_cons_new a (t ++ c :: l2 ++ c2 :: l3) acc ha' hl]
        exact ih c l2 c2 l3 (acc ++ [(a.id, a)]) heq hne
      · exact ⟨a.id, buildCapsByID_cons_dup a (t ++ c :: l2 ++ c2 :: l3) acc v ha' hl⟩

/-- Counterexample to C7 as stated: an allowlist containing the same
capability id twice does not make the run fail when the attempt requests
no repair actions — `executeRepairActions` returns a nil error and the run
proceeds, the duplicate undetected. -/
theorem executeRepairActions_duplicate_id_counterexample :
    executeRepairActions cfgDefault (fun _ => true) [] [capGoModTidy, capGoModTidy] =
      (none, []) := rfl

/-- C7 (amended): a duplicate non-empty capability id in the allowed list
is detected when `executeRepairActions` processes a non-empty action list
within the max-actions bound: the attempt fails with a duplicate-id error
before any capability executes.  (With an empty action list the check is
skipped and the duplicate goes undetected.) -/
theorem executeRepairActions_duplicate_id_rejected (cfg : Config) (runCap : Nat → Bool)
    (actionIDs : List String) (allowed : List RepairCapability)
    (hdup : hasDupID allowed)
    (hnz : actionIDs ≠ [])
    (hlen : ((actionIDs.length : Int) ≤
      (if cfg.repairMaxActionsPerAttempt ≤ 0 then 2 else cfg.repairMaxActionsPerAttempt))) :
    ∃ d, executeRepairActions cfg runCap actionIDs allowed =
      (some (.duplicateCapabilityID d), []) := by
  obtain ⟨l1, c, l2, c2, l3, hsplit, heq, hne⟩ := hdup
  obtain ⟨d, hd⟩ := buildCapsByID_error_of_dup l1 c l2 c2 l3 [] heq hne
  refine ⟨d, ?_⟩
  rw [executeRepairActions, if_neg (by simp only [List.isEmpty_eq_true]; exact hnz),
    if_neg (not_lt.mpr hlen), hsplit, hd]

/-- Witness for the amended C7: the duplicated `go_mod_tidy` allowlist with
one requested action is rejected with a duplicate-id error and nothing
executes. -/
theorem executeRepairActions_duplicate_id_rejected_witness :
    ∃ d, executeRepairActions cfgDefault (fun _ => true) ["go_mod_tidy"]
      [capGoModTidy, capGoModTidy] = (some (.duplicateCapabilityID d), []) :=
  executeRepairActions_duplicate_id_rejected cfgDefault (fun _ => true) ["go_mod_tidy"]
    [capGoModTidy, capGoModTidy]
    ⟨[], capGoModTidy, [], capGoModTidy, [], rfl, rfl, by decide⟩
    (by decide) (by decide)

/-! ### cmd/evolver — repair orchestrator -/

/-- Outcome of one `verify.RunCommandsReport` call as seen by the
orchestrator: a nil error, or a `CommandFailureError` carrying the failing
result (the only error shape `RunCommandsReport` produces). -/
inductive VerifyStep where
  | pass
  | fail (r : CommandResult)
deriving DecidableEq, Repr

/-- Oracle environment of `verifyWithRepair`: the outcome of every
external step, indexed by the loop's `attempt` counter.  `verify i` is the
verification outcome at loop iteration `i`; `hasClient` whether the plan
client is non-nil; `genOk`, `scanOk`, `validateOk`, `applyOk`, `budgetOk`
whether `GenerateRepairPlan`, `security.ScanPlan`, `plan.ValidatePaths`,
`apply.Execute` and `computeAndCheckBudget` succeed at attempt `i`;
`repairActions i` the action ids of the generated repair plan and
`runCap i` the per-position capability execution oracle passed on to
`executeRepairActions`. -/
structure RepairEnv where
  verify : Nat → VerifyStep
  hasClient : Bool
  genOk : Nat → Bool
  scanOk : Nat → Bool
  validateOk : Nat → Bool
  applyOk : Nat → Bool
  repairActions : Nat → List String
  runCap : Nat → Nat → Bool
  budgetOk : Nat → Bool

/-- Return site of `verifyWithRepair` (main.go lines 498-584), one
constructor per `return` statement, carrying the triggering verification
failure where the Go code propagates it. -/
inductive RepairOutcome where
  | success
  | terminal (r : CommandResult)
  | exhausted (r : CommandResult)
  | noClient (r : CommandResult)
  | genFailed (r : CommandResult)
  | scanFailed (r : CommandResult)
  | validateFailed (r : CommandResult)
  | applyFailed (r : CommandResult)
  | actionFailed (r : CommandResult) (e : RepairActionError)
  | budgetFailed (r : CommandResult)
deriving DecidableEq, Repr

/-- Embedding of `isTerminalVerifyFailure` (main.go lines 586-593). -/
def isTerminalVerifyFailure (kind : String) : Bool :=
  goLower (goTrim kind) == "security_integrity"

/-- Effective attempt bound of `verifyWithRepair` (main.go lines 499-502):
the configured `MaxAttempts`, defaulted to 2 when not positive. -/
def effectiveMaxAttempts (m : Int) : Nat :=
  if m ≤ 0 then 2 else m.toNat

/-- Loop body of `verifyWithRepair` (main.go lines 504-583), with the
attempt counter and a ghost counter of `GenerateRepairPlan` invocations
threaded explicitly.  Each iteration verifies, returns on success, on a
terminal kind, on attempt exhaustion, on a nil client, or on the failure
of any repair step, and otherwise re-enters verification with the attempt
counter incremented — a well-founded recursion on `m - attempt`. -/
def verifyRepairAux (cfg : Config) (env : RepairEnv) (m : Nat) :
    Nat → Nat → RepairOutcome × Nat
  | attempt, planCalls =>
    match env.verify attempt with
    | .pass => (.success, planCalls)
    | .fail r =>
      if isTerminalVerifyFailure r.kind then (.terminal r, planCalls)
      else if _hstop : m ≤ attempt then (.exhausted r, planCalls)
      else if !env.hasClient then (.noClient r, planCalls)
      else if !env.genOk attempt then (.genFailed r, planCalls + 1)
      else if cfg.securitySecretScan && !env.scanOk attempt then (.scanFailed r, planCalls + 1)
      else if !env.validateOk attempt then (.validateFailed r, planCalls + 1)
      else if !env.applyOk attempt then (.applyFailed r, planCalls + 1)
      else
        match (executeRepairActions cfg (env.runCap attempt) (env.repairActions attempt)
            (filterRepairCapabilities cfg.repairCapabilities r.kind)).1 with
        | some e => (.actionFailed r e, planCalls + 1)
        | none =>
          if !env.budgetOk attempt then (.budgetFailed r, planCalls + 1)
          else verifyRepairAux cfg env m (attempt + 1) (planCalls + 1)
termination_by attempt _ => m - attempt
decreasing_by simp_wf; omega

/-- Embedding of `verifyWithRepair` (main.go lines 498-584): run the loop
from attempt 0; the second component counts `GenerateRepairPlan`
invocations, i.e. entered repair cycles. -/
def verifyWithRepair (cfg : Config) (env : RepairEnv) : RepairOutcome × Nat :=
  verifyRepairAux cfg env (effectiveMaxAttempts cfg.repairMaxAttempts) 0 0

/-- One loop iteration of `verifyRepairAux` either returns with the
plan-call counter unchanged, returns with it incremented once (possible
only below the attempt bound), or recurses into the next attempt with it
incremented once (again only below the bound). -/
theorem verifyRepairAux_cases (cfg : Config) (env : RepairEnv) (m attempt planCalls : Nat) :
    (∃ o, verifyRepairAux cfg env m attempt planCalls = (o, planCalls)) ∨
    (attempt < m ∧ ∃ o, verifyRepairAux cfg env m attempt planCalls = (o, planCalls + 1)) ∨
    (attempt < m ∧ verifyRepairAux cfg env m attempt planCalls =
      verifyRepairAux cfg env m (attempt + 1) (planCalls + 1)) := by
  rw [verifyRepairAux]
  split
  · exact Or.inl ⟨.success, rfl⟩
  · split
    · exact Or.inl ⟨_, rfl⟩
    · split
      · exact Or.inl ⟨_, rfl⟩
      · rename_i hstop
        have hlt : attempt < m := by omega
        split
        · exact Or.inl ⟨_, rfl⟩
        · split
          · exact Or.inr (Or.inl ⟨hlt, _, rfl⟩)
          · split
            · exact Or.inr (Or.inl ⟨hlt, _, rfl⟩)
            · split
              · exact Or.inr (Or.inl ⟨hlt, _, rfl⟩)
              · split
                · exact Or.inr (Or.inl ⟨hlt, _, rfl⟩)
                · split
                  · exact Or.inr (Or.inl ⟨hlt, _, rfl⟩)
                  · split
                    · exact Or.inr (Or.inl ⟨hlt, _, rfl⟩)
                    · exact Or.inr (Or.inr ⟨hlt, rfl⟩)

/-- Terminal-kind step: a verification failure whose kind is terminal
returns the failure at once, with no plan-generator call. -/
theorem verifyRepairAux_step_terminal (cfg : Config) (env : RepairEnv)
    (m attempt planCalls : Nat) (r : CommandResult)
    (hv : env.verify attempt = .fail r)
    (ht : isTerminalVerifyFailure r.kind = true) :
    verifyRepairAux cfg env m attempt planCalls = (.terminal r, planCalls) := by
  rw [verifyRepairAux]
  split
  · rename_i heq
    rw [hv] at heq
    cases heq
  · rename_i r' heq
    rw [hv] at heq
    injection heq with hr
    subst hr
    rw [if_pos ht]

/-- Exhausted step: a repairable failure at or beyond the attempt bound
returns the failure at once. -/
theorem verifyRepairAux_step_exhausted (cfg : Config) (env : RepairEnv)
    (m attempt planCalls : Nat) (r : CommandResult)
    (hv : env.verify attempt = .fail r)
    (ht : isTerminalVerifyFailure r.kind = false)
    (hstop : m ≤ attempt) :
    verifyRepairAux cfg env m attempt planCalls = (.exhausted r, planCalls) := by
  rw [verifyRepairAux]
  split
  · rename_i heq
    rw [hv] at heq
    cases heq
  · rename_i r' heq
    rw [hv] at heq
    injection heq with hr
    subst hr
    rw [if_neg (by rw [ht]; exact Bool.false_ne_true), dif_pos hstop]

/-- Full-repair step: a repairable failure below the bound with every
repair-pipeline step succeeding re-enters verification at the next
attempt, with exactly one more plan-generator call. -/
theorem verifyRepairAux_step_next (cfg : Config) (env : RepairEnv)
    (m attempt planCalls : Nat) (r : CommandResult)
    (hv : env.verify attempt = .fail r)
    (ht : isTerminalVerifyFailure r.kind = false)
    (hlt : attempt < m)
    (hcl : env.hasClient = true)
    (hg : env.genOk attempt = true)
    (hs : (cfg.securitySecretScan && !env.scanOk attempt) = false)
    (hval : env.validateOk attempt = true)
    (happ : env.applyOk attempt = true)
    (hact : (executeRepairActions cfg (env.runCap attempt) (env.repairActions attempt)
      (filterRepairCapabilities cfg.repairCapabilities r.kind)).1 = none)
    (hb : env.budgetOk attempt = true) :
    verifyRepairAux cfg env m attempt planCalls =
      verifyRepairAux cfg env m (attempt + 1) (planCalls + 1) := by
  rw [verifyRepairAux]
  split
  · rename_i heq
    rw [hv] at heq
    cases heq
  · rename_i r' heq
    rw [hv] at heq
    injection heq with hr
    subst hr
    rw [if_neg (by rw [ht]; exact Bool.false_ne_true), dif_neg (by omega),
      hcl, Bool.not_true, if_neg Bool.false_ne_true,
      hg, Bool.not_true, if_neg Bool.false_ne_true,
      hs, if_neg Bool.false_ne_true,
      hval, Bool.not_true, if_neg Bool.false_ne_true,
      happ, Bool.not_true, if_neg Bool.false_ne_true]
    split
    · rename_i e heq2
      rw [hact] at heq2
      cases heq2
    · rw [hb, Bool.not_true, if_neg Bool.false_ne_true]

/-! ### Claim C1 -/

/-- C1: a verification failure classified with a terminal kind
(`security_integrity`) makes the orchestrator return the verification
error at once, from any reachable loop state — the plan-generator
invocation counter does not move — and in particular on the very first
verification call `verifyWithRepair` returns the failure with zero
`GenerateRepairPlan` invocations, regardless of the configured attempt
budget. -/
theorem verifyWithRepair_terminal_never_repairs (cfg : Config) (env : RepairEnv)
    (r : CommandResult) :
    (∀ m attempt planCalls : Nat,
      env.verify attempt = .fail r →
      isTerminalVerifyFailure r.kind = true →
      verifyRepairAux cfg env m attempt planCalls = (.terminal r, planCalls)) ∧
    (env.verify 0 = .fail r →
      isTerminalVerifyFailure r.kind = true →
      verifyWithRepair cfg env = (.terminal r, 0)) := by
  constructor
  · intro m attempt planCalls hv ht
    exact verifyRepairAux_step_terminal cfg env m attempt planCalls r hv ht
  · intro hv ht
    exact verifyRepairAux_step_terminal cfg env
      (effectiveMaxAttempts cfg.repairMaxAttempts) 0 0 r hv ht

/-- Environment of the C1 witness: the very first verification fails with
a checksum-mismatch output classified `security_integrity`. -/
def envTerminal : RepairEnv :=
  { verify := fun _ => .fail
      { index := 1, total := 1, command := "go test ./...", exitCode := 1,
        stdout := "", stderr := "SECURITY ERROR: checksum mismatch",
        durationMS := 10, passed := false, kind := "security_integrity" }
    hasClient := true
    genOk := fun _ => true
    scanOk := fun _ => true
    validateOk := fun _ => true
    applyOk := fun _ => true
    repairActions := fun _ => []
    runCap := fun _ _ => true
    budgetOk := fun _ => true }

/-- Witness for C1: with the terminal first failure, the orchestrator
returns it and the plan generator is invoked zero times. -/
theorem verifyWithRepair_terminal_never_repairs_witness :
    verifyWithRepair cfgDefault envTerminal =
      (.terminal
        { index := 1, total := 1, command := "go test ./...", exitCode := 1,
          stdout := "", stderr := "SECURITY ERROR: checksum mismatch",
          durationMS := 10, passed := false, kind := "security_integrity" }, 0) :=
  (verifyWithRepair_terminal_never_repairs cfgDefault envTerminal
    { index := 1, total := 1, command := "go test ./...", exitCode := 1,
      stdout := "", stderr := "SECURITY ERROR: checksum mismatch",
      durationMS := 10, passed := false, kind := "security_integrity" }).2
    rfl (by decide)

/-! ### Claim C2 -/

/-- Bound on the ghost counter: from any loop state, at most `m - attempt`
further plan-generator calls happen. -/
theorem verifyRepairAux_planCalls_le (cfg : Config) (env : RepairEnv) (m : Nat) :
    ∀ (k attempt planCalls : Nat), m - attempt ≤ k →
      (verifyRepairAux cfg env m attempt planCalls).2 ≤ planCalls + (m - attempt) := by
  intro k
  induction k with
  | zero =>
    intro attempt planCalls hk
    rcases verifyRepairAux_cases cfg env m attempt planCalls with
      ⟨o, ho⟩ | ⟨hlt, o, ho⟩ | ⟨hlt, hrec⟩
    · rw [ho]
      omega
    · omega
    · omega
  | succ k ih =>
    intro attempt planCalls hk
    rcases verifyRepairAux_cases cfg env m attempt planCalls with
      ⟨o, ho⟩ | ⟨hlt, o, ho⟩ | ⟨hlt, hrec⟩
    · rw [ho]
      omega
    · rw [ho]
      simp only []
      omega
    · rw [hrec]
      have := ih (attempt + 1) (planCalls + 1) (by omega)
      omega

/-- Exhaustion run: when verification keeps failing repairably through
attempt `m` and every repair step succeeds below `m`, the loop walks all
remaining attempts and stops with the failure observed at attempt `m`,
having entered exactly the remaining number of repair cycles. -/
theorem verifyRepairAux_exhausts (cfg : Config) (env : RepairEnv) (m : Nat)
    (f : Nat → CommandResult)
    (hv : ∀ i, i ≤ m → env.verify i = .fail (f i))
    (ht : ∀ i, i ≤ m → isTerminalVerifyFailure (f i).kind = false)
    (hcl : env.hasClient = true)
    (hg : ∀ i, i < m → env.genOk i = true)
    (hs : ∀ i, i < m → (cfg.securitySecretScan && !env.scanOk i) = false)
    (hval : ∀ i, i < m → env.validateOk i = true)
    (happ : ∀ i, i < m → env.applyOk i = true)
    (hact : ∀ i, i < m → (executeRepairActions cfg (env.runCap i) (env.repairActions i)
      (filterRepairCapabilities cfg.repairCapabilities (f i).kind)).1 = none)
    (hb : ∀ i, i < m → env.budgetOk i = true) :
    ∀ (k attempt planCalls : Nat), attempt + k = m →
      verifyRepairAux cfg env m attempt planCalls =
        (.exhausted (f m), planCalls + k) := by
  intro k
  induction k with
  | zero =>
    intro attempt planCalls hk
    have hm : attempt = m := by omega
    subst hm
    rw [Nat.add_zero]
    rw [verifyRepairAux_step_exhausted cfg env attempt attempt planCalls (f attempt)
      (hv attempt le_rfl) (ht attempt le_rfl) le_rfl]
  | succ k ih =>
    intro attempt planCalls hk
    have hlt : attempt < m := by omega
    rw [verifyRepairAux_step_next cfg env m attempt planCalls (f attempt)
      (hv attempt (by omega)) (ht attempt (by omega)) hlt hcl (hg attempt hlt)
      (hs attempt hlt) (hval attempt hlt) (happ attempt hlt) (hact attempt hlt)
      (hb attempt hlt)]
    rw [ih (attempt + 1) (planCalls + 1) (by omega)]
    congr 1
    omega

/-- C2: with a positive configured `maxAttempts`, the orchestrator enters
at most `maxAttempts` repair cycles for every environment (the loop is a
well-founded recursion on the remaining attempts); and when verification
fails with a repairable kind at attempts `0..maxAttempts` — the
`(maxAttempts+1)`-th consecutive repairable failure — while every repair
step succeeds, it terminates with the exhausted outcome carrying the last
verification failure, after exactly `maxAttempts` repair cycles. -/
theorem verifyWithRepair_bounded_attempts (cfg : Config) (env : RepairEnv)
    (hm : 0 < cfg.repairMaxAttempts) :
    ((verifyWithRepair cfg env).2 ≤ cfg.repairMaxAttempts.toNat) ∧
    (∀ f : Nat → CommandResult,
      (∀ i, i ≤ cfg.repairMaxAttempts.toNat → env.verify i = .fail (f i)) →
      (∀ i, i ≤ cfg.repairMaxAttempts.toNat →
        isTerminalVerifyFailure (f i).kind = false) →
      env.hasClient = true →
      (∀ i, i < cfg.repairMaxAttempts.toNat → env.genOk i = true) →
      (∀ i, i < cfg.repairMaxAttempts.toNat →
        (cfg.securitySecretScan && !env.scanOk i) = false) →
      (∀ i, i < cfg.repairMaxAttempts.toNat → env.validateOk i = true) →
      (∀ i, i < cfg.repairMaxAttempts.toNat → env.applyOk i = true) →
      (∀ i, i < cfg.repairMaxAttempts.toNat →
        (executeRepairActions cfg (env.runCap i) (env.repairActions i)
          (filterRepairCapabilities cfg.repairCapabilities (f i).kind)).1 = none) →
      (∀ i, i < cfg.repairMaxAttempts.toNat → env.budgetOk i = true) →
      verifyWithRepair cfg env =
        (.exhausted (f cfg.repairMaxAttempts.toNat), cfg.repairMaxAttempts.toNat)) := by
  have heff : effectiveMaxAttempts cfg.repairMaxAttempts = cfg.repairMaxAttempts.toNat := by
    rw [effectiveMaxAttempts, if_neg (by omega)]
  constructor
  · have hb := verifyRepairAux_planCalls_le cfg env
      (effectiveMaxAttempts cfg.repairMaxAttempts)
      (effectiveMaxAttempts cfg.repairMaxAttempts) 0 0 (le_refl _)
    have hb' : (verifyWithRepair cfg env).2 ≤
        0 + (effectiveMaxAttempts cfg.repairMaxAttempts - 0) := hb
    rw [heff] at hb'
    omega
  · intro f hv ht hcl hg hs hval happ hact hb
    have := verifyRepairAux_exhausts cfg env cfg.repairMaxAttempts.toNat f
      hv ht hcl hg hs hval happ hact hb cfg.repairMaxAttempts.toNat 0 0 (by omega)
    calc verifyWithRepair cfg env
        = verifyRepairAux cfg env (effectiveMaxAttempts cfg.repairMaxAttempts) 0 0 := rfl
      _ = verifyRepairAux cfg env cfg.repairMaxAttempts.toNat 0 0 := by rw [heff]
      _ = (.exhausted (f cfg.repairMaxAttempts.toNat), cfg.repairMaxAttempts.toNat) := by
          rw [this]
          congr 1
          omega

/-- Environment of the C2 witness: every verification fails with the same
repairable `test_failure` result and every repair step succeeds. -/
def envAlwaysFailing : RepairEnv :=
  { verify := fun _ => .fail
      { index := 1, total := 1, command := "go test ./...", exitCode := 1,
        stdout := "--- FAIL: TestX", stderr := "",
        durationMS := 10, passed := false, kind := "test_failure" }
    hasClient := true
    genOk := fun _ => true
    scanOk := fun _ => true
    validateOk := fun _ => true
    applyOk := fun _ => true
    repairActions := fun _ => []
    runCap := fun _ _ => true
    budgetOk := fun _ => true }

/-- Witness for C2: with `maxAttempts = 2` and every verification failing
with `test_failure`, the orchestrator performs exactly 2 repair cycles and
returns the exhausted outcome with the last failure. -/
theorem verifyWithRepair_bounded_attempts_witness :
    verifyWithRepair cfgDefault envAlwaysFailing =
      (.exhausted
        { index := 1, total := 1, command := "go test ./...", exitCode := 1,
          stdout := "--- FAIL: TestX", stderr := "",
          durationMS := 10, passed := false, kind := "test_failure" }, 2) :=
  (verifyWithRepair_bounded_attempts cfgDefault envAlwaysFailing (by decide)).2
    (fun _ =>
      { index := 1, total := 1, command := "go test ./...", exitCode := 1,
        stdout := "--- FAIL: TestX", stderr := "",
        durationMS := 10, passed := false, kind := "test_failure" })
    (fun _ _ => rfl) (fun _ _ => rfl) rfl (fun _ _ => rfl) (fun _ _ => rfl)
    (fun _ _ => rfl) (fun _ _ => rfl) (fun _ _ => rfl) (fun _ _ => rfl)
